import Mathlib

/-!
Shallow embedding of the session engine of the `llm` repository
(`history/history.go`, `chat/chat.go`, `mcp/mcpcli.go`, `storage/*.go`,
`chats_manager.go`) together with proofs and refutations of the frozen
specification claims.

Modelling conventions:
* `container/ring.Ring` (a cyclic list with a distinguished current element)
  is represented as a plain list whose head is the current element; `Next()`
  is the rotation that moves the head to the back.
* Go maps are represented as association lists; a `nil` map is represented
  as `Option` of an association list (`none` = nil) where the distinction is
  observable (reading a nil map yields the zero value, writing panics).
* External collaborators (the SHA1 hash, JSON codecs, the MCP transport,
  the LLM backend stream) are parameters of the embedded operations, as the
  spec treats them as interfaces only.
* A Go nil-pointer dereference or nil-map write is modelled as an explicit
  `panic` outcome, distinct from a returned error.
-/

namespace LlmSpec

/-! ## History Buffer (`history/history.go`)

`History` wraps `ring.New(context)`.  The ring is modelled as the list of
its slots starting at the current position; `ring.New(c)` with `c ≤ 0`
returns the nil ring, modelled by the empty slot list (operations on it are
outside the domain of the claims, which require capacity ≥ 1). -/

structure HistoryB (α : Type) where
  data : List (Option α)
deriving DecidableEq, Repr

/-- Embeds `history.New`: `ring.New(context)` gives `context` empty slots
with the current position at the first. -/
def newH (α : Type) (c : Nat) : HistoryB α :=
  ⟨List.replicate c none⟩

/-- Embeds `History.Store`: write `msg` into the current slot, then advance
(`u.data = u.data.Next()`), i.e. the written slot rotates to the back. -/
def store {α : Type} (m : α) (h : HistoryB α) : HistoryB α :=
  match h.data with
  | [] => ⟨[]⟩
  | _ :: xs => ⟨xs ++ [some m]⟩

/-- Embeds `History.StoreMany`: sequential `Store` in argument order. -/
def storeMany {α : Type} (msgs : List α) (h : HistoryB α) : HistoryB α :=
  msgs.foldl (fun acc m => store m acc) h

/-- Embeds `History.Clear`.  The Go closure passed to `ring.Do` assigns
`u.data.Value = nil` on every iteration without advancing `u.data`, so after
`Len()` iterations only the current slot has been set to nil. -/
def clear {α : Type} (h : HistoryB α) : HistoryB α :=
  match h.data with
  | [] => ⟨[]⟩
  | _ :: xs => ⟨none :: xs⟩

/-- Embeds `History.Len`: `u.data.Len()`, the number of ring slots. -/
def lenH {α : Type} (h : HistoryB α) : Nat :=
  h.data.length

/-- Embeds `History.Slice`: `ring.Do` visits the slots starting at the
current position in ring order; nil slots are skipped. -/
def slice {α : Type} (h : HistoryB α) : List α :=
  h.data.filterMap id

theorem storeMany_cons {α : Type} (m : α) (rest : List α) (h : HistoryB α) :
    storeMany (m :: rest) h = storeMany rest (store m h) := rfl

theorem storeMany_nil {α : Type} (h : HistoryB α) :
    storeMany ([] : List α) h = h := rfl

/-- Invariant of the ring under sequential stores: starting from `k` empty
slots followed by the occupied window `w` (current position first), storing
`msgs` leaves `k - |msgs|` empty slots followed by the last `k + |w|`
elements of `w ++ msgs`. -/
theorem storeMany_replicate {α : Type} (msgs : List α) :
    ∀ (k : Nat) (w : List α),
      storeMany msgs ⟨List.replicate k none ++ w.map some⟩
        = ⟨List.replicate (k - msgs.length) none
            ++ ((w ++ msgs).drop (msgs.length - k)).map some⟩ := by
  induction msgs with
  | nil =>
    intro k w
    simp [storeMany]
  | cons m rest ih =>
    intro k w
    rw [storeMany_cons]
    cases k with
    | zero =>
      cases w with
      | nil =>
        have hs : store m (⟨List.replicate 0 none ++ List.map some ([] : List α)⟩ :
            HistoryB α) = ⟨List.replicate 0 none ++ List.map some ([] : List α)⟩ := by
          simp [store]
        rw [hs, ih 0 []]
        simp [List.drop_of_length_le]
      | cons w0 w1 =>
        have hs : store m (⟨List.replicate 0 none ++ List.map some (w0 :: w1)⟩ :
            HistoryB α) = ⟨List.replicate 0 none ++ List.map some (w1 ++ [m])⟩ := by
          simp [store]
        rw [hs, ih 0 (w1 ++ [m])]
        simp [Nat.succ_sub_succ]
    | succ k1 =>
      have hs : store m (⟨List.replicate (k1 + 1) none ++ List.map some w⟩ :
          HistoryB α) = ⟨List.replicate k1 none ++ List.map some (w ++ [m])⟩ := by
        simp [store, List.replicate_succ]
      rw [hs, ih k1 (w ++ [m])]
      simp [Nat.succ_sub_succ]

/-- Storing `msgs` into a fresh buffer of capacity `c` leaves
`c - |msgs|` empty slots followed by the last `min |msgs| c` messages. -/
theorem storeMany_newH {α : Type} (c : Nat) (msgs : List α) :
    storeMany msgs (newH α c)
      = ⟨List.replicate (c - msgs.length) none
          ++ (msgs.drop (msgs.length - c)).map some⟩ := by
  have h := storeMany_replicate msgs c []
  simpa [newH] using h

theorem slice_replicate_append {α : Type} (k : Nat) (l : List α) :
    slice (⟨List.replicate k none ++ l.map some⟩ : HistoryB α) = l := by
  induction k with
  | zero => simp [slice, List.filterMap_map]
  | succ n ih =>
    simp only [slice, List.replicate_succ, List.cons_append, List.filterMap_cons]
    exact ih

/-- Claim C7: for every capacity `C ≥ 1` and appended sequence `msgs`, the
snapshot of the buffer equals the last `min |msgs| C` appended messages in
their original relative order, and has that length. -/
theorem history_snapshot_is_last_window {α : Type} (c : Nat) (msgs : List α)
    (hc : 1 ≤ c) :
    slice (storeMany msgs (newH α c)) = msgs.drop (msgs.length - c)
      ∧ (slice (storeMany msgs (newH α c))).length = min msgs.length c := by
  rw [storeMany_newH, slice_replicate_append]
  refine ⟨rfl, ?_⟩
  rw [List.length_drop]
  omega

/-- Witness for C7 at capacity 2 with three appended messages: the snapshot
is the last two messages, in order. -/
theorem history_snapshot_is_last_window_witness :
    slice (storeMany ["a", "b", "c"] (newH String 2)) = ["b", "c"]
      ∧ (slice (storeMany ["a", "b", "c"] (newH String 2))).length = min 3 2 := by
  have h := history_snapshot_is_last_window 2 ["a", "b", "c"] (by decide)
  exact ⟨h.1.trans (by decide), h.2⟩

theorem store_preserves_length {α : Type} (m : α) (h : HistoryB α) :
    (store m h).data.length = h.data.length := by
  cases h with
  | mk d => cases d <;> simp [store]

theorem storeMany_preserves_length {α : Type} (msgs : List α) :
    ∀ (h : HistoryB α), (storeMany msgs h).data.length = h.data.length := by
  induction msgs with
  | nil => intro h; rfl
  | cons m rest ih =>
    intro h
    rw [storeMany_cons, ih (store m h), store_preserves_length]

/-- Claim C8: `Len` returns the buffer capacity, independent of how many
messages have been stored. -/
theorem history_len_is_capacity {α : Type} (c : Nat) (msgs : List α)
    (_hc : 1 ≤ c) :
    lenH (storeMany msgs (newH α c)) = c := by
  simp [lenH, storeMany_preserves_length, newH]

/-- Witness for C8: after storing three messages in a capacity-2 buffer,
`Len` still returns 2. -/
theorem history_len_is_capacity_witness :
    lenH (storeMany ["a", "b", "c"] (newH String 2)) = 2 :=
  history_len_is_capacity 2 ["a", "b", "c"] (by decide)

/-- Claim C2 evaluated on the code: with capacity 2 and stored messages
`m1, m2`, `Clear` followed by `Slice` still yields `[m2]` — the closure in
`Clear` nils only the ring's current slot, so the buffer is not emptied. -/
theorem history_clear_keeps_messages :
    slice (clear (storeMany ["m1", "m2"] (newH String 2))) = ["m2"]
      ∧ slice (clear (storeMany ["m1", "m2"] (newH String 2))) ≠ [] := by
  decide

/-! ## Messages and tool calls (`arkruntime/model` as used by the code)

Only the fields the repository reads or writes are modelled:
`Role`, `Content.StringValue` (a nullable string pointer) and `ToolCallID`
for messages; `ID`, `Function.Name`, `Function.Arguments` and `Type` for
tool calls (the field `Type` is rendered `Typ`). -/

structure ChatMessage where
  role : String
  content : Option String
  toolCallID : String
deriving DecidableEq, Repr

structure FunctionCall where
  Name : String
  Arguments : String
deriving DecidableEq, Repr

structure ToolCall where
  ID : String
  Function : FunctionCall
  Typ : String
deriving DecidableEq, Repr

/-! ## Streaming Response Assembler (`Chat.doStream` in `chat/chat.go`)

The stream is modelled as the list of results of successive `Recv` calls:
a chunk (with `none` standing for a response whose `Choices` is empty), a
graceful end (`io.EOF`), or a transport error.  Reaching the end of the
list models `stream.IsFinished` becoming true.  The sink `w` returns
`some e` to model a write error.  A nil-pointer dereference is a distinct
`panic` outcome. -/

structure Delta where
  role : String
  content : String
  toolCalls : List ToolCall
deriving DecidableEq, Repr

inductive RecvEvent where
  | chunk (d : Option Delta)
  | eof
  | fail (e : String)
deriving DecidableEq, Repr

structure AsmState where
  toolCallMap : List (String × ToolCall)
  lastCallID : String
  message : String
  hist : HistoryB ChatMessage
deriving DecidableEq, Repr

inductive StreamOutcome where
  | ok (tools : List (String × ToolCall)) (hist : HistoryB ChatMessage)
  | err (e : String) (hist : HistoryB ChatMessage)
  | panic (hist : HistoryB ChatMessage)
deriving DecidableEq, Repr

inductive StepResult where
  | cont (st : AsmState)
  | stopErr (e : String) (hist : HistoryB ChatMessage)
  | stopPanic (hist : HistoryB ChatMessage)
deriving DecidableEq, Repr

/-- Embeds one tool-call delta of `doStream`: a non-empty `ID` not yet in
the map creates a fresh entry and always becomes `lastCallID`; an empty
`ID` appends the argument fragment to the entry at `lastCallID`, and the
Go code dereferences a nil `*model.ToolCall` (panic) when that entry is
missing. -/
def applyToolDelta (mp : List (String × ToolCall)) (last : String)
    (tc : ToolCall) : Option (List (String × ToolCall) × String) :=
  if tc.ID ≠ "" then
    if (mp.lookup tc.ID).isNone then
      some (mp ++ [(tc.ID, ⟨tc.ID, ⟨tc.Function.Name, tc.Function.Arguments⟩, tc.Typ⟩)],
            tc.ID)
    else
      some (mp, tc.ID)
  else
    match mp.lookup last with
    | none => none
    | some cur =>
        some (mp.map (fun p =>
          if p.1 = last then
            (last, { cur with Function :=
              { cur.Function with Arguments := cur.Function.Arguments ++ tc.Function.Arguments } })
          else p), last)

/-- Embeds the `for _, tc := range recv.Choices[0].Delta.ToolCalls` loop. -/
def applyToolDeltas : List ToolCall → List (String × ToolCall) → String →
    Option (List (String × ToolCall) × String)
  | [], mp, last => some (mp, last)
  | tc :: rest, mp, last =>
      match applyToolDelta mp last tc with
      | none => none
      | some (mp2, l2) => applyToolDeltas rest mp2 l2

/-- Embeds the tool-delta part of processing one received chunk. -/
def stepTools (d : Delta) (st : AsmState) : StepResult :=
  match applyToolDeltas d.toolCalls st.toolCallMap st.lastCallID with
  | none => .stopPanic st.hist
  | some (mp, l) => .cont { st with toolCallMap := mp, lastCallID := l }

/-- Embeds the processing of one received chunk of `doStream`: forward an
assistant text delta to the sink (a sink error aborts), accumulate it, then
process the tool-call deltas. -/
def stepDelta (w : String → Option String) (d : Delta) (st : AsmState) :
    StepResult :=
  if d.role == "assistant" && d.content != "" then
    match w d.content with
    | some e => .stopErr e st.hist
    | none => stepTools d { st with message := st.message ++ d.content }
  else
    stepTools d st

/-- Embeds the finalize step of `doStream`: the assistant message is
appended to the history once, only here, and only when the accumulated
text is non-empty. -/
def finalize (st : AsmState) : StreamOutcome :=
  if st.message != "" then
    .ok st.toolCallMap
      (store ⟨"assistant", some st.message, ""⟩ st.hist)
  else
    .ok st.toolCallMap st.hist

/-- Embeds the `for !stream.IsFinished` receive loop of `doStream`:
`io.EOF` breaks to finalize, any other `Recv` error returns it at once,
and exhausting the event list models `IsFinished`. -/
def runStream (w : String → Option String) :
    List RecvEvent → AsmState → StreamOutcome
  | [], st => finalize st
  | .eof :: _, st => finalize st
  | .fail e :: _, st => .err e st.hist
  | .chunk none :: rest, st => runStream w rest st
  | .chunk (some d) :: rest, st =>
      match stepDelta w d st with
      | .cont st2 => runStream w rest st2
      | .stopErr e h => .err e h
      | .stopPanic h => .panic h

/-- Embeds the state of `doStream` on entry: empty tool-call map, empty
`lastCallID`, empty accumulated text, the session's current history. -/
def initAsm (h : HistoryB ChatMessage) : AsmState :=
  ⟨[], "", "", h⟩

/-- Claim C5: on the two fragments
`[  id:"a" name:"f" args:"\x7b\"x\":"  ,  id:"" args:"1\x7d"  ]` the
assembler returns exactly one completed tool call
`id:"a" name:"f" args:"\x7b\"x\":1\x7d"` and commits nothing else. -/
theorem assembler_reconstructs_split_arguments :
    runStream (fun _ => none)
      [RecvEvent.chunk (some ⟨"", "", [⟨"a", ⟨"f", "\x7b\"x\":"⟩, "function"⟩]⟩),
       RecvEvent.chunk (some ⟨"", "", [⟨"", ⟨"", "1\x7d"⟩, ""⟩]⟩)]
      (initAsm (newH ChatMessage 4))
      = .ok [("a", ⟨"a", ⟨"f", "\x7b\"x\":1\x7d"⟩, "function"⟩)]
          (newH ChatMessage 4) := by
  decide

theorem stepTools_cont_hist (d : Delta) (st st2 : AsmState)
    (h : stepTools d st = .cont st2) : st2.hist = st.hist := by
  unfold stepTools at h
  split at h
  · exact absurd h (by simp)
  · cases h
    rfl

theorem stepDelta_cont_hist (w : String → Option String) (d : Delta)
    (st st2 : AsmState) (h : stepDelta w d st = .cont st2) :
    st2.hist = st.hist := by
  unfold stepDelta at h
  split at h
  · split at h
    · exact absurd h (by simp)
    · exact stepTools_cont_hist d { st with message := st.message ++ d.content } st2 h
  · exact stepTools_cont_hist d st st2 h

theorem stepDelta_err_hist (w : String → Option String) (d : Delta)
    (st : AsmState) (e : String) (h2 : HistoryB ChatMessage)
    (h : stepDelta w d st = .stopErr e h2) : h2 = st.hist := by
  unfold stepDelta at h
  split at h
  · split at h
    · cases h
      rfl
    · unfold stepTools at h
      split at h <;> exact absurd h (by simp)
  · unfold stepTools at h
    split at h <;> exact absurd h (by simp)

theorem runStream_err_hist (w : String → Option String) (events : List RecvEvent) :
    ∀ (st : AsmState) (e : String) (h2 : HistoryB ChatMessage),
      runStream w events st = .err e h2 → h2 = st.hist := by
  induction events with
  | nil =>
    intro st e h2 hr
    unfold runStream finalize at hr
    split at hr <;> exact absurd hr (by simp)
  | cons ev rest ih =>
    intro st e h2 hr
    cases ev with
    | eof =>
      unfold runStream finalize at hr
      split at hr <;> exact absurd hr (by simp)
    | fail e2 =>
      unfold runStream at hr
      cases hr
      rfl
    | chunk d =>
      cases d with
      | none => exact ih st e h2 hr
      | some d0 =>
        unfold runStream at hr
        cases hstep : stepDelta w d0 st with
        | cont st2 =>
          rw [hstep] at hr
          rw [ih st2 e h2 hr, stepDelta_cont_hist w d0 st st2 hstep]
        | stopErr e2 hh =>
          rw [hstep] at hr
          injection hr with he hh2
          subst he
          subst hh2
          exact stepDelta_err_hist w d0 st _ _ hstep
        | stopPanic hh =>
          rw [hstep] at hr
          exact absurd hr (by simp)

/-- Claim C6: whenever the streaming call ends in an error other than
graceful stream end (a `Recv` error or a sink write error), `doStream`
returns that error and the History Buffer is unchanged — the assistant
message is committed only at a successful finalize. -/
theorem stream_error_leaves_history_unchanged (w : String → Option String)
    (events : List RecvEvent) (h : HistoryB ChatMessage) (e : String)
    (h2 : HistoryB ChatMessage)
    (hr : runStream w events (initAsm h) = .err e h2) : h2 = h :=
  runStream_err_hist w events (initAsm h) e h2 hr

/-- Witness for C6: a sink that rejects the first write makes the assembler
return that error with the history it was given. -/
theorem stream_error_leaves_history_unchanged_witness :
    runStream (fun _ => some "sink closed")
        [RecvEvent.chunk (some ⟨"assistant", "Hel", []⟩)]
        (initAsm (newH ChatMessage 3))
      = .err "sink closed" (newH ChatMessage 3)
    ∧ (newH ChatMessage 3) = (newH ChatMessage 3) := by
  refine ⟨by decide, ?_⟩
  exact stream_error_leaves_history_unchanged (fun _ => some "sink closed")
    [RecvEvent.chunk (some ⟨"assistant", "Hel", []⟩)] (newH ChatMessage 3)
    "sink closed" (newH ChatMessage 3) (by decide)

/-- Claim C9: when the first tool-call delta of a stream carries an empty
id, `doStream` neither returns a result nor an error: the lookup
`toolCallMap[lastCallID]` misses and the nil `*model.ToolCall` is
dereferenced, a panic. -/
theorem assembler_empty_first_id_panics :
    runStream (fun _ => none)
        [RecvEvent.chunk (some ⟨"", "", [⟨"", ⟨"", "x"⟩, ""⟩]⟩)]
        (initAsm (newH ChatMessage 4))
      = .panic (newH ChatMessage 4) := by
  decide

/-! ## Storage backends (`storage/memory.go`, `storage/file.go`)

Go maps appear as association lists; `mapStore` is the map assignment
`m[k] = v`.  JSON values written by the storage layer are modelled by a
small syntax distinguishing an array of messages (what `Store` marshals)
from a single message object (what `FileStorage.Load` tries to
unmarshal): decoding an array as a single object fails, as in Go. -/

def mapStore {β : Type} (k : String) (v : β) (m : List (String × β)) :
    List (String × β) :=
  (k, v) :: m.filter (fun p => p.1 != k)

/-- Embeds `MemoryStorage.Store`: unconditionally sets `data[chatid]`
(the preparatory empty-slice insertion is overwritten immediately). -/
def memStore (k : String) (msgs : List ChatMessage)
    (s : List (String × List ChatMessage)) : List (String × List ChatMessage) :=
  mapStore k msgs s

/-- Embeds `MemoryStorage.Load`: the stored slice, or an empty slice when
the chat id is absent; it never fails. -/
def memLoad (k : String) (s : List (String × List ChatMessage)) :
    List ChatMessage :=
  (s.lookup k).getD []

inductive JVal where
  | jarr (l : List ChatMessage)
  | jobj (m : ChatMessage)
deriving DecidableEq, Repr

/-- Embeds `json.MarshalToString` applied to a message slice: a JSON
array. -/
def marshalHistory (l : List ChatMessage) : JVal :=
  .jarr l

/-- Embeds `json.UnmarshalFromString(v, &x)` for a single
`ChatCompletionMessage`: succeeds on an object, fails on an array. -/
def unmarshalMessage : JVal → Option ChatMessage
  | .jobj m => some m
  | .jarr _ => none

structure FileDB where
  entries : List (String × JVal)
deriving DecidableEq, Repr

/-- Embeds `FileStorage.Store`: `db.Write(chatid, json(history))`. -/
def fileStore (k : String) (hist : List ChatMessage) (db : FileDB) : FileDB :=
  ⟨mapStore k (marshalHistory hist) db.entries⟩

/-- Embeds the `db.ForEach` body of `FileStorage.Load`: each visited value
is decoded as one single message; a decoding failure makes the callback
return the error, ending the iteration with the entries collected so far. -/
def fileLoadEntries : List (String × JVal) → List ChatMessage
  | [] => []
  | (_, v) :: rest =>
      match unmarshalMessage v with
      | none => []
      | some m => m :: fileLoadEntries rest

/-- Embeds `FileStorage.Load`: it iterates over every stored key — the
`chatid` argument is never consulted — and returns whatever the iteration
collected, discarding the callback error. -/
def fileLoad (_chatid : String) (db : FileDB) : List ChatMessage :=
  fileLoadEntries db.entries

/-- In-memory storage round-trips: `Load` after `Store` of the same key
returns exactly the stored message list. -/
theorem memory_storage_roundtrip (k : String) (msgs : List ChatMessage)
    (s : List (String × List ChatMessage)) :
    memLoad k (memStore k msgs s) = msgs := by
  simp [memLoad, memStore, mapStore, List.lookup]

/-- Claim C4 evaluated on the code: storing a two-message history under key
`k` in a fresh `FileStorage` and loading `k` back yields the empty list,
not the stored list — `Load` unmarshals the stored JSON array as a single
message and fails, so the round-trip law is broken for `FileStorage`. -/
theorem filestorage_roundtrip_fails :
    fileLoad "k" (fileStore "k"
        [⟨"user", some "hello", ""⟩, ⟨"assistant", some "hi", ""⟩] ⟨[]⟩) = []
      ∧ fileLoad "k" (fileStore "k"
        [⟨"user", some "hello", ""⟩, ⟨"assistant", some "hi", ""⟩] ⟨[]⟩)
        ≠ [⟨"user", some "hello", ""⟩, ⟨"assistant", some "hi", ""⟩] := by
  decide

/-! ## MCP client (`mcp/mcpcli.go`)

The transport (`client.NewSSEMCPClient`, `Initialize`, `ListTools`,
`CallTool`) and the JSON argument decoder are external collaborators,
passed as parameters.  `McpClient.idx` is created by no constructor, so it
is a nil map: reading it yields the zero value, writing it panics. -/

structure MClient where
  uri : String
deriving DecidableEq, Repr

structure MTool where
  name : String
  description : String
deriving DecidableEq, Repr

structure McpState where
  clis : List (String × MClient)
  idx : Option (List (String × String))
  tools : List MTool
deriving DecidableEq, Repr

/-- Embeds `mcpcli.New`: `clis` and `tools` are allocated, `idx` is left
nil. -/
def mcpNew : McpState :=
  ⟨[], none, []⟩

/-- Embeds the read `m.idx[name]`: reading a nil or missing entry yields
the zero value, the empty string. -/
def idxRead (idx : Option (List (String × String))) (name : String) : String :=
  ((idx.getD []).lookup name).getD ""

structure McpEnv where
  parseArgs : String → Except String (List (String × String))
  callTool : String → String → List (String × String) → Except String String

inductive CallOutcome where
  | ok (m : ChatMessage)
  | err (e : String)
  | panic
deriving DecidableEq, Repr

/-- Embeds `McpClient.Call`: decode the arguments (a decoding failure is
returned as an error), then evaluate
`m.clis[m.idx[tc.Function.Name]].cli.CallTool(...)` — when the tool name
is not in the routing index the lookup misses and the nil `*mclient` is
dereferenced, a panic; a `CallTool` error is returned; a success becomes a
tool-role message carrying the call id. -/
def mcpCall (env : McpEnv) (st : McpState) (tc : ToolCall) : CallOutcome :=
  match env.parseArgs tc.Function.Arguments with
  | .error e => .err e
  | .ok args =>
      match st.clis.lookup (idxRead st.idx tc.Function.Name) with
      | none => .panic
      | some cl =>
          match env.callTool cl.uri tc.Function.Name args with
          | .error e => .err e
          | .ok r => .ok ⟨"tool", some r, tc.ID⟩

/-- Claim C3 evaluated on the code: a tool call whose name is not in the
catalogue is not turned into a returned (droppable, loggable) error — with
well-formed arguments, `Call` dereferences the nil client for the missed
routing entry and panics. -/
theorem mcp_call_unknown_tool_panics :
    mcpCall
      ⟨fun s => if s = "\x7b\x7d" then .ok [] else .error "invalid json",
       fun _ _ _ => .ok "result"⟩
      ⟨[("srvkey", ⟨"http://srv"⟩)], some [("known", "srvkey")], []⟩
      ⟨"call-1", ⟨"nosuch", "\x7b\x7d"⟩, "function"⟩
      = .panic := by
  decide

structure McpLoadEnv where
  listTools : String → Except String (List MTool)

inductive LoadOutcome where
  | ok (st : McpState)
  | err (e : String)
  | panic
deriving DecidableEq, Repr

/-- Embeds the tool-registration loop at the end of `loadTools`:
`m.idx[mcptool.Name] = clikey` is a write to the nil map when `idx` was
never initialized, a panic; `m.tools.Store` deduplicates. -/
def registerTools (clikey : String) : List MTool → McpState → LoadOutcome
  | [], st => .ok st
  | t :: rest, st =>
      match st.idx with
      | none => .panic
      | some ix =>
          registerTools clikey rest
            { st with
              idx := some (mapStore t.name clikey ix),
              tools := if st.tools.contains t then st.tools else st.tools ++ [t] }

/-- Embeds `McpClient.loadTools`: the connection cache is consulted under
the hash of the URI; on a miss the Go code reads `cli.uri` from the nil
`*mclient` it just obtained — before any connection is attempted — a
panic.  On a hit, the server is asked for its tools and they are
registered. -/
def loadTools (keyOf : String → String) (env : McpLoadEnv) (st : McpState)
    (mcpUri : String) : LoadOutcome :=
  let clikey := keyOf mcpUri
  match st.clis.lookup clikey with
  | none => .panic
  | some cl =>
      match env.listTools cl.uri with
      | .error e => .err e
      | .ok ts => registerTools clikey ts st

/-- Embeds `McpClient.AddTools`: an empty URI is ignored, otherwise
`loadTools` runs. -/
def addTools (keyOf : String → String) (env : McpLoadEnv) (st : McpState)
    (mcpUri : String) : LoadOutcome :=
  if mcpUri = "" then .ok st else loadTools keyOf env st mcpUri

/-- Claim C10: `New` leaves the routing index nil, and for every non-empty
URI the first `AddTools` on a fresh client panics on the nil `*mclient`
from the missed cache lookup instead of completing. -/
theorem mcp_first_addtools_panics :
    mcpNew.idx = none
      ∧ ∀ (keyOf : String → String) (env : McpLoadEnv) (uri : String),
          uri ≠ "" → addTools keyOf env mcpNew uri = .panic := by
  refine ⟨rfl, ?_⟩
  intro keyOf env uri hne
  simp [addTools, hne, loadTools, mcpNew, List.lookup]

/-- Witness for C10 at a concrete URI and trivial collaborators. -/
theorem mcp_first_addtools_panics_witness :
    addTools (fun s => s) ⟨fun _ => .ok []⟩ mcpNew "http://a" = .panic :=
  mcp_first_addtools_panics.2 (fun s => s) ⟨fun _ => .ok []⟩ "http://a"
    (by decide)

/-! ## Session registry (`chats_manager.go`)

`ChatsManager.Chat` first derives `keyid := crypto.GetSHA1(id)` (the hash
is an external collaborator, a parameter `keyOf` here) and acquires the
session; only this acquisition step decides claim C1, so it is embedded on
its own.  The storage collaborator appears as `loadStore` (its Load error
is only logged, so the embedding carries the loaded list, empty on
failure). -/

structure ChatSession where
  id : String
  hist : HistoryB ChatMessage
deriving DecidableEq, Repr

/-- Embeds `chat.New(keyid, model, WithMaxHistory(n))`: a session whose id
is the derived key and whose history is a fresh buffer of capacity `n`. -/
def chatNew (keyid : String) (maxHistory : Nat) : ChatSession :=
  ⟨keyid, newH ChatMessage maxHistory⟩

/-- Embeds `Chat.SetHistory`: `StoreMany` of the restored list. -/
def setHistory (h : List ChatMessage) (c : ChatSession) : ChatSession :=
  { c with hist := storeMany h c.hist }

structure ManagerState where
  chats : List (String × ChatSession)
deriving DecidableEq, Repr

/-- Embeds the session-acquisition prefix of `ChatsManager.Chat`: look up
`cm.chats` under `keyid = keyOf id`; on a miss, build a new session for
`keyid`, restore its history from storage under `keyid` when non-empty,
and register it with `cm.chats.Store(id, ch)` — under the raw `id`.  The
returned flag is true when a new session was created. -/
def acquireSession (keyOf : String → String)
    (loadStore : String → List ChatMessage) (maxHistory : Nat) (id : String)
    (st : ManagerState) : ManagerState × ChatSession × Bool :=
  let keyid := keyOf id
  match st.chats.lookup keyid with
  | some ch => (st, ch, false)
  | none =>
      let ch0 := chatNew keyid maxHistory
      let his := loadStore keyid
      let ch := if his.length > 0 then setHistory his ch0 else ch0
      (⟨mapStore id ch st.chats⟩, ch, true)

/-- Claim C1 evaluated on the code: whenever the derived key differs from
the raw id (as it always does for the SHA1 hash), a second `Chat` call
with the same id does not find the session created by the first call —
both calls take the creation path, because the session is stored under the
raw id while the lookup uses the derived key. -/
theorem chats_manager_second_call_creates_again (keyOf : String → String)
    (loadStore : String → List ChatMessage) (maxHistory : Nat) (id : String)
    (hne : keyOf id ≠ id) :
    (acquireSession keyOf loadStore maxHistory id ⟨[]⟩).2.2 = true
      ∧ (acquireSession keyOf loadStore maxHistory id
          (acquireSession keyOf loadStore maxHistory id ⟨[]⟩).1).2.2 = true := by
  have hbeq : (keyOf id == id) = false := by
    simpa using hne
  constructor
  · simp [acquireSession, List.lookup]
  · simp [acquireSession, List.lookup, mapStore, hbeq]

/-- Witness for C1 with a concrete injective-on-this-point key derivation
and the id `user-123`: both the first and the second call create a fresh
session. -/
theorem chats_manager_second_call_creates_again_witness :
    (acquireSession (fun s => String.append "hash-" s) (fun _ => []) 2
        "user-123" ⟨[]⟩).2.2 = true
      ∧ (acquireSession (fun s => String.append "hash-" s) (fun _ => []) 2
          "user-123"
          (acquireSession (fun s => String.append "hash-" s) (fun _ => []) 2
            "user-123" ⟨[]⟩).1).2.2 = true :=
  chats_manager_second_call_creates_again (fun s => String.append "hash-" s)
    (fun _ => []) 2 "user-123" (by decide)

end LlmSpec
